import Mathlib

set_option maxRecDepth 3000

/-! Verification development for the `pykCSD` 3D kernel current source density
estimator (`pykCSD/KCSD3D.py`).  The Python code is shallowly embedded over `ℚ`:
numpy arrays become index functions, fallible operations return `Except`, and
the external numerical collaborators (float `sqrt`, `np.pi`, scipy's `tplquad`
triple integrator, scipy's `interp1d` interpolator, the missing
`source_distribution` / `cross_validation` / `basis_functions` modules) are
modelled as explicit parameters, as the specification prescribes for external
collaborators.
-/

namespace PyKCSD

/-- A 3D point (numpy length-3 row). -/
abbrev Pt : Type := ℚ × ℚ × ℚ

/-- A numpy 1D array, as a total index function. -/
abbrev Vec : Type := ℕ → ℚ

/-- A numpy 2D array, as a total index function. -/
abbrev Mat : Type := ℕ → ℕ → ℚ

/-- A numpy 3D array, as a total index function. -/
abbrev Arr3 : Type := ℕ → ℕ → ℕ → ℚ

/-- Model of `np.round`: round half to even (banker's rounding), as used on
`dt_len * dist / dist_max` in `calculate_b_pot_matrix_3D` (line 317). -/
def npRound (q : ℚ) : ℤ :=
  if q - ⌊q⌋ < 1/2 then ⌊q⌋
  else if 1/2 < q - ⌊q⌋ then ⌊q⌋ + 1
  else if 2 ∣ ⌊q⌋ then ⌊q⌋ else ⌊q⌋ + 1

/-- The `numpy.uint16` cast applied to a nonnegative rounded value:
reduction modulo `2^16`. -/
def npUint16 (z : ℤ) : ℕ := z.toNat % 65536

/-- Model of `np.arange(start, stop, step)` for positive `step`:
`ceil((stop-start)/step)` equally spaced points from `start`. -/
def npArange (start stop step : ℚ) : List ℚ :=
  (List.range (Int.toNat ⌈(stop - start) / step⌉)).map fun (k : ℕ) =>
    start + (k : ℚ) * step

/-- Insert into a sorted list, skipping duplicates. -/
def insertSorted (x : ℚ) : List ℚ → List ℚ
  | [] => [x]
  | a :: t =>
    if x < a then x :: a :: t
    else if x = a then a :: t
    else a :: insertSorted x t

/-- Model of `np.unique`: sorted list of the distinct elements. -/
def npUnique (l : List ℚ) : List ℚ := l.foldr insertSorted []

/-- Model of `np.linspace(start, stop, num)`: `num` points from `start` to `stop`
inclusive.  (For `num = 1` the rational division by zero yields `0`, so the
single point is `start`, matching numpy.) -/
def npLinspace (start stop : ℚ) (num : ℕ) : List ℚ :=
  (List.range num).map fun (k : ℕ) =>
    start + (k : ℚ) * ((stop - start) / ((num : ℚ) - 1))

/-- The `num` argument `(maxv - minv)/gd + 1` of the `np.linspace` calls in
`set_parameters` (lines 76-78), truncated to an integer. -/
def linNum (minv maxv gd : ℚ) : ℕ := (⌊(maxv - minv) / gd + 1⌋).toNat

/-- Model of `np.max` of a 1D array (0 on the empty array, which numpy rejects). -/
def npMaxL : List ℚ → ℚ
  | [] => 0
  | a :: t => t.foldl max a

/-- Model of `np.min` of a 1D array (0 on the empty array, which numpy rejects). -/
def npMinL : List ℚ → ℚ
  | [] => 0
  | a :: t => t.foldl min a

/-- Python's `min` on a possibly empty list (`None` models the `ValueError`). -/
def npMin : List ℚ → Option ℚ
  | [] => none
  | a :: t => some (t.foldl min a)

/-- The distance-table lookup index of `calculate_b_pot_matrix_3D` line 317:
`np.minimum(uint16(np.round(dt_len * dist / dist_max)), dt_len - 1)`. -/
def lookup_index (dt_len : ℕ) (dist dist_max : ℚ) : ℕ :=
  min (npUint16 (npRound (dt_len * dist / dist_max))) (dt_len - 1)

/-- The lookup index of `generated_potential` line 368, which additionally
takes `np.maximum(0, ·)` of the same expression. -/
def lookup_index_interp (dt_len : ℕ) (dist dist_max : ℚ) : ℕ :=
  max 0 (min (npUint16 (npRound (dt_len * dist / dist_max))) (dt_len - 1))

/-- The index the specification's lookup contract prescribes:
`round(density * d / dist_max)` clamped into `[0, density-1]`. -/
def claimed_lookup_index (density : ℕ) (dist dist_max : ℚ) : ℕ :=
  min (npRound ((density : ℚ) * dist / dist_max)).toNat (density - 1)

section RoundLemmas

theorem npRound_nonneg {q : ℚ} (h : 0 ≤ q) : 0 ≤ npRound q := by
  have hf : (0 : ℤ) ≤ ⌊q⌋ := by exact_mod_cast Int.floor_nonneg.mpr h
  unfold npRound
  split
  · exact hf
  · split
    · omega
    · split
      · exact hf
      · omega

theorem npRound_le_floor_add_one (q : ℚ) : npRound q ≤ ⌊q⌋ + 1 := by
  unfold npRound
  split
  · omega
  · split
    · omega
    · split
      · omega
      · omega

end RoundLemmas

/-- Model of `np.dot(A, B)` with inner dimension `k`. -/
def matMul (k : ℕ) (A B : Mat) : Mat :=
  fun i j => ∑ t ∈ Finset.range k, A i t * B t j

/-- Model of `np.transpose`. -/
def matTrans (A : Mat) : Mat := fun i j => A j i

/-- Model of `np.dot(A, v)` for a matrix and a vector, inner dimension `k`. -/
def matVec (k : ℕ) (A : Mat) (v : Vec) : Vec :=
  fun i => ∑ t ∈ Finset.range k, A i t * v t

/-- Pointwise matrix sum. -/
def matAdd (A B : Mat) : Mat := fun i j => A i j + B i j

/-- Scalar times a matrix. -/
def matSmul (c : ℚ) (A : Mat) : Mat := fun i j => c * A i j

/-- Model of `np.identity` (entries outside the working square are never read). -/
def identityM : Mat := fun i j => if i = j then 1 else 0

/-- The top-left `n × n` block of a dynamic matrix, as a Mathlib matrix. -/
def toFinMat (n : ℕ) (A : Mat) : Matrix (Fin n) (Fin n) ℚ :=
  Matrix.of fun i j => A (i : ℕ) (j : ℕ)

/-- The value `np.linalg.inv` returns on a nonsingular `n × n` matrix:
over `ℚ`, `det⁻¹ • adjugate`, padded with zeros outside the square. -/
def npinvFun (n : ℕ) (A : Mat) : Mat := fun i j =>
  if h : i < n ∧ j < n then
    (((toFinMat n A).det)⁻¹ • (toFinMat n A).adjugate) ⟨i, h.1⟩ ⟨j, h.2⟩
  else 0

/-- Model of `np.linalg.inv`, raising (`none`) on an exactly singular matrix. -/
def np_linalg_inv (n : ℕ) (A : Mat) : Option Mat :=
  if (toFinMat n A).det = 0 then none else some (npinvFun n A)

/-- Piecewise-linear interpolation through sorted nodes: a computable stand-in
used to instantiate the abstract `interp1d` collaborator in concrete witnesses.
It agrees with the sample values at every node, which is the only interface
property of scipy's `interp1d` the theorems below rely on. -/
def linInterp : List ℚ → List ℚ → ℚ → ℚ
  | x1 :: x2 :: xs, y1 :: y2 :: ys, q =>
    if q ≤ x1 then y1
    else if q ≤ x2 then y1 + (y2 - y1) * (q - x1) / (x2 - x1)
    else linInterp (x2 :: xs) (y2 :: ys) q
  | x1 :: [], y1 :: _, _ => y1
  | _, _, _ => 0

/-- The basis source shape selected by the `source_type` parameter. -/
inductive SourceType where
  | step
  | gaussian
  | gauss_lim
  deriving DecidableEq

/-- Modelled from the spec: the `basis_functions` module (`bf`) is not part of
the analysed source.  The spec's BasisCatalog contract only fixes arities and
that each variant returns a basis density value, so the four functions the
KCSD3D code calls are kept abstract.  The arities mirror the call sites:
`gauss_rescale_lim` receives only planar coordinates and a 2D centre
(line 352), and `gauss_rescale_lim_3D` is invoked with only `xp, yp`
(line 218). -/
structure BasisFns where
  step_rescale_3D : ℚ → ℚ → ℚ → ℚ → ℚ
  gauss_rescale_3D : ℚ → ℚ → ℚ → Pt → ℚ → ℚ
  gauss_rescale_lim : ℚ → ℚ → ℚ × ℚ → ℚ → ℚ
  gauss_rescale_lim_3D : ℚ → ℚ → Pt → ℚ → ℚ

/-- External numerical collaborators, modelled as parameters:
`sqrtQ` for the float square root used by `np.linalg.norm` / `np.sqrt`,
`npPi` for the float constant `np.pi`, `tplquad` for
`scipy.integrate.tplquad` over the cube `[lo, hi]^3`, `interp1d` for scipy's
cubic interpolator.
Modelled from the spec: `make_src_3D` (the missing `source_distribution`
module; the spec directs to treat SourceLayout as an external deterministic
function) takes the grid arrays with their shape, the requested source count,
the extension margins and the initial radius, and returns the source-centre
lattice arrays, their shape, and the common radius `R`; `cross_validation`
(the missing `cross_validation` module) returns the held-out reconstruction
error for one candidate lambda given the sampled potentials, the kernel
matrix, the electrode count and the fold count. -/
structure Externals where
  sqrtQ : ℚ → ℚ
  npPi : ℚ
  tplquad : (ℚ → ℚ → ℚ → ℚ) → ℚ → ℚ → ℚ
  interp1d : List ℚ → List ℚ → ℚ → ℚ
  make_src_3D : Arr3 → Arr3 → Arr3 → ℕ × ℕ × ℕ → ℕ → ℚ → ℚ → ℚ → ℚ →
    Arr3 × Arr3 × Arr3 × (ℕ × ℕ × ℕ) × ℚ
  cross_validation : ℚ → Vec → Mat → ℕ → ℕ → ℚ

/-- Model of `np.linalg.norm(p - q)` for length-3 rows: the float square root of the
sum of squared coordinate differences. -/
def euclid (ext : Externals) (p q : Pt) : ℚ :=
  ext.sqrtQ ((p.1 - q.1)^2 + (p.2.1 - q.2.1)^2 + (p.2.2 - q.2.2)^2)

/-- Model of `KCSD3D.int_pot` (lines 192-219): contribution of the point `(xp, yp, zp)`
of a basis source support centred at the origin to the potential at `(x,0,0)`.
In the `gauss_lim` branch the source passes only `xp, yp` to
`gauss_rescale_lim_3D` (line 218). -/
def int_pot (ext : Externals) (bfs : BasisFns) (xp yp zp x R h : ℚ)
    (src_type : SourceType) : ℚ :=
  let y := ext.sqrtQ ((x - xp)^2 + yp^2 + zp^2)
  let y := if y < 1/100000 then 1/100000 else y
  let y := 1/y
  match src_type with
  | .step => y * bfs.step_rescale_3D xp yp zp R
  | .gaussian => y * bfs.gauss_rescale_3D xp yp zp (0, 0, 0) R
  | .gauss_lim => y * bfs.gauss_rescale_lim_3D xp yp (0, 0, 0) R

/-- Model of `KCSD3D.b_pot_3d_cont` (lines 221-233): potential at distance `x` from a
basis source, by triple integration of `int_pot` over `[-R, R]^3`, scaled by
`1/(4 π σ)`. -/
def b_pot_3d_cont (ext : Externals) (bfs : BasisFns) (x R h sigma : ℚ)
    (src_type : SourceType) : ℚ :=
  (ext.tplquad (fun xp yp zp => int_pot ext bfs xp yp zp x R h src_type) (-R) R)
    * (1 / (4 * ext.npPi * sigma))

/-- The normalized-distance sample points `xs` built by `create_dist_table`
(lines 242-258): dense up to `0.9 R`, denser through `1.3 R`, sparse beyond,
then `np.unique`. -/
def dist_table_xs (R dist_max : ℚ) : List ℚ :=
  let density : ℚ := 100
  let border1 := 9/10 * R / dist_max * density
  let border2 := 13/10 * R / dist_max * density
  npUnique (npArange 0 border1 3 ++ [border1]
    ++ npArange (border1 + 1) border2 3
    ++ [border2, border2 + 1]
    ++ npArange (border2 + 1 + 9/2) density 9
    ++ [density + 1])

/-- The raw table values at the sample points (lines 263-265): the basis
potential evaluated at the physical distance `(x/density) * dist_max`. -/
def dist_table_ys (ext : Externals) (bfs : BasisFns) (R dist_max h sigma : ℚ)
    (src_type : SourceType) : List ℚ :=
  (dist_table_xs R dist_max).map fun x =>
    b_pot_3d_cont ext bfs (x / 100 * dist_max) R h sigma src_type

/-- Model of `KCSD3D.create_dist_table` (lines 235-272): interpolate the raw samples
and tabulate the interpolant at the integer indices `0, ..., 99`
(`dist_table_density = 100`, line 68). -/
def create_dist_table (ext : Externals) (bfs : BasisFns) (R dist_max h sigma : ℚ)
    (src_type : SourceType) : List ℚ :=
  (List.range 100).map fun (i : ℕ) =>
    ext.interp1d (dist_table_xs R dist_max)
      (dist_table_ys ext bfs R dist_max h sigma src_type) (i : ℚ)

/-- Model of `np.unravel_index(i, (nx, ny, nz))` in the default C order, as used for
the source index of `calculate_b_pot_matrix_3D` (line 308). -/
def unravel_index_C (ny nz i : ℕ) : ℕ × ℕ × ℕ :=
  (i / (ny * nz), i / nz % ny, i % nz)

/-- Model of `np.unravel_index(i, (nx, ny, nz), order='F')`, as used for the source
index of `make_b_src_matrix_3D` (line 342) and
`make_b_interp_pot_matrix_3D` (line 392). -/
def unravel_index_F (nx ny i : ℕ) : ℕ × ℕ × ℕ :=
  (i % nx, i / nx % ny, i / (nx * ny))

/-- The source centre at a lattice index triple, read off the three source
coordinate arrays. -/
def src_at (Xs Ys Zs : Arr3) (t : ℕ × ℕ × ℕ) : Pt :=
  (Xs t.1 t.2.1 t.2.2, Ys t.1 t.2.1 t.2.2, Zs t.1 t.2.1 t.2.2)

/-- The errors the embedded methods can raise: construction-time validation
failures, reads of attributes `calculate_matrices` has not yet created,
`numpy.linalg.LinAlgError` on a singular matrix (the spec's
`SingularMatrixError`), and the `ValueError`/`IndexError` of `choose_lambda`
on degenerate candidate sets. -/
inductive KErr where
  | configurationError
  | attributeError
  | singularMatrix
  | valueError
  | indexError
  deriving DecidableEq

/-- The attribute state of a `KCSD3D` object.  The fields up to `space_Z` are
set by `__init__`/`set_parameters`; the `Option` fields below them do not
exist until `calculate_matrices` (or an estimation call) assigns them. -/
structure KState where
  n_elec : ℕ
  elec_pos : ℕ → Pt
  sampled_pots : Vec
  lambd : ℚ
  sigma : ℚ
  hBasis : ℚ
  R : ℚ
  dist_max : ℚ
  source_type : SourceType
  nsx : ℕ
  nsy : ℕ
  nsz : ℕ
  X_src : Arr3
  Y_src : Arr3
  Z_src : Arr3
  sx : ℕ
  sy : ℕ
  sz : ℕ
  space_X : Arr3
  space_Y : Arr3
  space_Z : Arr3
  dist_table : Option (List ℚ)
  b_pot_matrix : Option Mat
  k_pot : Option Mat
  b_src_matrix : Option Mat
  k_interp_cross : Option Mat
  b_interp_pot_matrix : Option Mat
  interp_pot : Option Mat
  estimated_pots : Option Arr3
  estimated_csd : Option Arr3

/-- The optional `params` dictionary of the constructor (lines 48-72). -/
structure KParams where
  sigma : Option ℚ
  n_sources : Option ℕ
  x_max : Option ℚ
  x_min : Option ℚ
  y_max : Option ℚ
  y_min : Option ℚ
  z_max : Option ℚ
  z_min : Option ℚ
  lambd : Option ℚ
  R_init : Option ℚ
  hBasis : Option ℚ
  ext_X : Option ℚ
  ext_Y : Option ℚ
  ext_Z : Option ℚ
  gdX : Option ℚ
  gdY : Option ℚ
  gdZ : Option ℚ
  source_type : Option SourceType

/-- The empty parameter dictionary (every key takes its default). -/
def KParams.default : KParams :=
  ⟨none, none, none, none, none, none, none, none, none,
   none, none, none, none, none, none, none, none, none⟩

/-- The minimum pairwise electrode distance `distance.pdist(elec_pos).min()`
used for the default initial radius (line 59). -/
def pdist_min (ext : Externals) (n : ℕ) (pos : ℕ → Pt) : ℚ :=
  npMinL (((List.range n).map fun i =>
    ((List.range n).filterMap fun j =>
      if i < j then some (euclid ext (pos i) (pos j)) else none)).flatten)

/-- All entries of an `nx × ny × nz` array as a flat list (for `np.max` /
`np.min` over source coordinate arrays, lines 86-88). -/
def arrToList (nx ny nz : ℕ) (A : Arr3) : List ℚ :=
  ((List.range nx).map fun a =>
    ((List.range ny).map fun b =>
      (List.range nz).map fun c => A a b c).flatten).flatten

/-- Lines 86-89 (recomputed identically at lines 297-300 and 378-381): the
diagonal of the cuboid enclosing all sources, each side extended by `R`. -/
def cuboid_diag (ext : Externals) (Xs Ys Zs : Arr3) (nx ny nz : ℕ) (R : ℚ) : ℚ :=
  let Lx := npMaxL (arrToList nx ny nz Xs) - npMinL (arrToList nx ny nz Xs) + R
  let Ly := npMaxL (arrToList nx ny nz Ys) - npMinL (arrToList nx ny nz Ys) + R
  let Lz := npMaxL (arrToList nx ny nz Zs) - npMinL (arrToList nx ny nz Zs) + R
  ext.sqrtQ (Lx^2 + Ly^2 + Lz^2)

/-- Model of `KCSD3D.__init__` together with `validate_parameters` and
`set_parameters` (lines 22-89).  Validation errors are raised before any
state exists; on success every derived-matrix attribute is absent (`none`).
Note line 78 of the source: the third `np.linspace` runs from `self.zmin` to
`self.ymax` (with the point count taken from the z extent). -/
def KCSD3D_mk (ext : Externals) (n_elec n_pots : ℕ) (elec_pos : ℕ → Pt)
    (sampled_pots : Vec) (params : KParams) : Except KErr KState :=
  if n_elec ≠ n_pots then .error .configurationError
  else if n_elec < 4 then .error .configurationError
  else
    let sigma := params.sigma.getD 1
    let n_sources := params.n_sources.getD 100
    let xmax := params.x_max.getD (npMaxL ((List.range n_elec).map fun i => (elec_pos i).1))
    let xmin := params.x_min.getD (npMinL ((List.range n_elec).map fun i => (elec_pos i).1))
    let ymax := params.y_max.getD (npMaxL ((List.range n_elec).map fun i => (elec_pos i).2.1))
    let ymin := params.y_min.getD (npMinL ((List.range n_elec).map fun i => (elec_pos i).2.1))
    let zmax := params.z_max.getD (npMaxL ((List.range n_elec).map fun i => (elec_pos i).2.2))
    let zmin := params.z_min.getD (npMinL ((List.range n_elec).map fun i => (elec_pos i).2.2))
    let lambd := params.lambd.getD 0
    let R_init := params.R_init.getD (2 * pdist_min ext n_elec elec_pos)
    let hBasis := params.hBasis.getD 1
    let extX := params.ext_X.getD 0
    let extY := params.ext_Y.getD 0
    let extZ := params.ext_Z.getD 0
    let gdX := params.gdX.getD (1/20 * (xmax - xmin))
    let gdY := params.gdY.getD (1/20 * (ymax - ymin))
    let gdZ := params.gdZ.getD (1/20 * (zmax - zmin))
    let source_type := params.source_type.getD .gaussian
    let lin_x := npLinspace xmin xmax (linNum xmin xmax gdX)
    let lin_y := npLinspace ymin ymax (linNum ymin ymax gdY)
    let lin_z := npLinspace zmin ymax (linNum zmin zmax gdZ)
    let sx := lin_y.length
    let sy := lin_x.length
    let sz := lin_z.length
    let space_X : Arr3 := fun _ b _ => lin_x.getD b 0
    let space_Y : Arr3 := fun a _ _ => lin_y.getD a 0
    let space_Z : Arr3 := fun _ _ c => lin_z.getD c 0
    let srcres := ext.make_src_3D space_X space_Y space_Z (sx, sy, sz) n_sources extX extY extZ R_init
    let X_src := srcres.1
    let Y_src := srcres.2.1
    let Z_src := srcres.2.2.1
    let nsx := srcres.2.2.2.1.1
    let nsy := srcres.2.2.2.1.2.1
    let nsz := srcres.2.2.2.1.2.2
    let R := srcres.2.2.2.2
    .ok
      { n_elec := n_elec, elec_pos := elec_pos, sampled_pots := sampled_pots
        lambd := lambd, sigma := sigma, hBasis := hBasis, R := R
        dist_max := cuboid_diag ext X_src Y_src Z_src nsx nsy nsz R
        source_type := source_type
        nsx := nsx, nsy := nsy, nsz := nsz
        X_src := X_src, Y_src := Y_src, Z_src := Z_src
        sx := sx, sy := sy, sz := sz
        space_X := space_X, space_Y := space_Y, space_Z := space_Z
        dist_table := none, b_pot_matrix := none, k_pot := none
        b_src_matrix := none, k_interp_cross := none
        b_interp_pot_matrix := none, interp_pot := none
        estimated_pots := none, estimated_csd := none }

/-- The source centre that row `i` of `b_pot_matrix` refers to: C-order
unravelling of `i` over the source lattice shape (lines 306-309). -/
def b_pot_row_source (s : KState) (i : ℕ) : Pt :=
  src_at s.X_src s.Y_src s.Z_src (unravel_index_C s.nsy s.nsz i)

/-- The source centre that column `i` of `b_src_matrix` refers to: Fortran
order unravelling of `i` (lines 340-345). -/
def b_src_col_source (s : KState) (i : ℕ) : Pt :=
  src_at s.X_src s.Y_src s.Z_src (unravel_index_F s.nsx s.nsy i)

/-- The source centre that column `i` of `b_interp_pot_matrix` refers to:
Fortran order unravelling of `i` (lines 390-395). -/
def b_interp_col_source (s : KState) (i : ℕ) : Pt :=
  src_at s.X_src s.Y_src s.Z_src (unravel_index_F s.nsx s.nsy i)

/-- Model of `KCSD3D.calculate_b_pot_matrix_3D` (lines 281-319): entry `(i, j)` is the
distance-table value at the lookup index of the distance between source `i`
(C-order unravelling) and electrode `j`. -/
def calculate_b_pot_matrix_3D (ext : Externals) (s : KState) (dt : List ℚ) : Mat :=
  fun i j =>
    dt.getD (lookup_index dt.length
      (euclid ext (s.elec_pos j) (b_pot_row_source s i))
      (cuboid_diag ext s.X_src s.Y_src s.Z_src s.nsx s.nsy s.nsz s.R)) 0

/-- The value of one `b_src_matrix` entry for a grid point `gp` and a source
centre `src` (lines 347-352).  The `step` branch receives the coordinate
differences, the `gaussian` branch the grid point plus the 3D centre, and the
`gauss_lim` branch only the planar grid coordinates and a 2D centre. -/
def b_src_entry (bfs : BasisFns) (src_type : SourceType) (gp src : Pt) (R : ℚ) : ℚ :=
  match src_type with
  | .step => bfs.step_rescale_3D (gp.1 - src.1) (gp.2.1 - src.2.1) (gp.2.2 - src.2.2) R
  | .gaussian => bfs.gauss_rescale_3D gp.1 gp.2.1 gp.2.2 src R
  | .gauss_lim => bfs.gauss_rescale_lim gp.1 gp.2.1 (src.1, src.2.1) R

/-- The grid point at flat (C-order) row index `g` of the reshaped
grid-by-source matrices. -/
def grid_point (s : KState) (g : ℕ) : Pt :=
  let t := unravel_index_C s.sy s.sz g
  (s.space_X t.1 t.2.1 t.2.2, s.space_Y t.1 t.2.1 t.2.2, s.space_Z t.1 t.2.1 t.2.2)

/-- Model of `KCSD3D.make_b_src_matrix_3D` (lines 327-354): entry `(g, i)` is the basis
source density of source `i` (Fortran unravelling) at grid point `g`. -/
def make_b_src_matrix_3D (bfs : BasisFns) (s : KState) : Mat :=
  fun g i => b_src_entry bfs s.source_type (grid_point s g) (b_src_col_source s i) s.R

/-- Model of `KCSD3D.generated_potential` (lines 364-371): distance-table lookup on the
distance between a grid point and a source centre. -/
def generated_potential (ext : Externals) (s : KState) (dt : List ℚ)
    (src : Pt) (dist_max : ℚ) (gp : Pt) : ℚ :=
  dt.getD (lookup_index_interp dt.length (euclid ext gp src) dist_max) 0

/-- Model of `KCSD3D.make_b_interp_pot_matrix_3D` (lines 374-399): entry `(g, i)` is
`generated_potential` of source `i` (Fortran unravelling) at grid point `g`,
with `dist_max` recomputed by the same cuboid-diagonal formula. -/
def make_b_interp_pot_matrix_3D (ext : Externals) (s : KState) (dt : List ℚ) : Mat :=
  fun g i =>
    generated_potential ext s dt (b_interp_col_source s i)
      (cuboid_diag ext s.X_src s.Y_src s.Z_src s.nsx s.nsy s.nsz s.R)
      (grid_point s g)

/-- The distance table computed by `calculate_matrices` (line 180). -/
def cm_dt (ext : Externals) (bfs : BasisFns) (s : KState) : List ℚ :=
  create_dist_table ext bfs s.R s.dist_max s.hBasis s.sigma s.source_type

/-- The `b_pot_matrix` computed by `calculate_matrices` (line 182). -/
def cm_b_pot (ext : Externals) (bfs : BasisFns) (s : KState) : Mat :=
  calculate_b_pot_matrix_3D ext s (cm_dt ext bfs s)

/-- Model of `k_pot = dot(transpose(b_pot_matrix), b_pot_matrix)` (line 183);
the inner dimension is the source count. -/
def cm_k_pot (ext : Externals) (bfs : BasisFns) (s : KState) : Mat :=
  matMul (s.nsx * s.nsy * s.nsz) (matTrans (cm_b_pot ext bfs s)) (cm_b_pot ext bfs s)

/-- The `b_src_matrix` computed by `calculate_matrices` (line 185). -/
def cm_b_src (bfs : BasisFns) (s : KState) : Mat :=
  make_b_src_matrix_3D bfs s

/-- Model of `k_interp_cross = np.dot(b_src_matrix, b_pot_matrix)` (line 186). -/
def cm_k_cross (ext : Externals) (bfs : BasisFns) (s : KState) : Mat :=
  matMul (s.nsx * s.nsy * s.nsz) (cm_b_src bfs s) (cm_b_pot ext bfs s)

/-- The `b_interp_pot_matrix` computed by `calculate_matrices` (line 188). -/
def cm_b_interp (ext : Externals) (bfs : BasisFns) (s : KState) : Mat :=
  make_b_interp_pot_matrix_3D ext s (cm_dt ext bfs s)

/-- Model of `interp_pot = dot(b_interp_pot_matrix, b_pot_matrix)` (line 189). -/
def cm_interp_pot (ext : Externals) (bfs : BasisFns) (s : KState) : Mat :=
  matMul (s.nsx * s.nsy * s.nsz) (cm_b_interp ext bfs s) (cm_b_pot ext bfs s)

/-- Model of `KCSD3D.calculate_matrices` (lines 176-189): assigns the distance table,
the three `b_*` matrices and the three derived kernel matrices. -/
def calculate_matrices (ext : Externals) (bfs : BasisFns) (s : KState) : KState :=
  { s with
    dist_table := some (cm_dt ext bfs s)
    b_pot_matrix := some (cm_b_pot ext bfs s)
    k_pot := some (cm_k_pot ext bfs s)
    b_src_matrix := some (cm_b_src bfs s)
    k_interp_cross := some (cm_k_cross ext bfs s)
    b_interp_pot_matrix := some (cm_b_interp ext bfs s)
    interp_pot := some (cm_interp_pot ext bfs s) }

/-- Model of `output.reshape(nx, ny, nz)` in C order, with `(nx, ny, nz)` the
estimation-space shape (lines 98, 104). -/
def reshape3 (ny nz : ℕ) (v : Vec) : Arr3 :=
  fun a b c => v (a * (ny * nz) + b * nz + c)

/-- The electrode loop of `estimate_pots`/`estimate_csd` (lines 101-102,
117-118): accumulate `beta[i] * estimation_table[:, i]` over the electrodes. -/
def accumulate_field (n_elec : ℕ) (beta : Vec) (estimation_table : Mat) : Vec :=
  (List.range n_elec).foldl
    (fun acc i => fun g => acc g + beta i * estimation_table g i) (fun _ => 0)

/-- Model of `KCSD3D.estimate_pots` (lines 91-105): read `interp_pot` and `k_pot`,
invert the regularized kernel, form `beta`, project onto the grid and store
the reshaped field in `estimated_pots`. -/
def estimate_pots (s : KState) : Except KErr (KState × Arr3) :=
  match s.interp_pot with
  | none => .error .attributeError
  | some estimation_table =>
    match s.k_pot with
    | none => .error .attributeError
    | some kp =>
      match np_linalg_inv s.n_elec (matAdd kp (matSmul s.lambd identityM)) with
      | none => .error .singularMatrix
      | some k_inv =>
        let beta := matVec s.n_elec k_inv s.sampled_pots
        let res := reshape3 s.sy s.sz (accumulate_field s.n_elec beta estimation_table)
        .ok ({ s with estimated_pots := some res }, res)

/-- Model of `KCSD3D.estimate_csd` (lines 107-121): identical to `estimate_pots` but
projecting through `k_interp_cross` and storing `estimated_csd`. -/
def estimate_csd (s : KState) : Except KErr (KState × Arr3) :=
  match s.k_interp_cross with
  | none => .error .attributeError
  | some estimation_table =>
    match s.k_pot with
    | none => .error .attributeError
    | some kp =>
      match np_linalg_inv s.n_elec (matAdd kp (matSmul s.lambd identityM)) with
      | none => .error .singularMatrix
      | some k_inv =>
        let beta := matVec s.n_elec k_inv s.sampled_pots
        let res := reshape3 s.sy s.sz (accumulate_field s.n_elec beta estimation_table)
        .ok ({ s with estimated_csd := some res }, res)

/-- The mean cross-validation error of candidate `i`:
`np.mean(errors_iter)` over the `n_iter` iterations (line 414), where
`errFn i j` is the value the `j`-th `cv.cross_validation` call for candidate
`i` returned. -/
def meanErr (errFn : ℕ → ℕ → ℚ) (n_iter i : ℕ) : ℚ :=
  (∑ j ∈ Finset.range n_iter, errFn i j) / (n_iter : ℚ)

/-- The selection step of `KCSD3D.choose_lambda` (lines 407-415): compute the
per-candidate mean errors and return `lambdas[errors == min(errors)][0]`
(`none` models the `ValueError` of `min` on an empty array). -/
def choose_lambda_core (lambdas : List ℚ) (errFn : ℕ → ℕ → ℚ) (n_iter : ℕ) :
    Option ℚ :=
  let errors := (List.range lambdas.length).map (meanErr errFn n_iter)
  match npMin errors with
  | none => none
  | some m =>
    (((lambdas.zip errors).filter fun p => decide (p.2 = m)).head?).map Prod.fst

/-- Model of `KCSD3D.choose_lambda` (lines 403-415) at the attribute level: the
cross-validation calls read `self.k_pot` (an `AttributeError` when absent);
an empty candidate list makes `min` raise `ValueError`; `n_iter = 0` leaves
every mean `NaN` so the final indexing raises `IndexError`; the method
assigns no attribute. -/
def choose_lambda (ext : Externals) (s : KState) (lambdas : List ℚ)
    (n_folds n_iter : ℕ) : Except KErr (KState × ℚ) :=
  if lambdas.isEmpty then .error .valueError
  else if n_iter = 0 then .error .indexError
  else
    match s.k_pot with
    | none => .error .attributeError
    | some kp =>
      match choose_lambda_core lambdas
        (fun i _ => ext.cross_validation (lambdas.getD i 0) s.sampled_pots kp
          s.n_elec n_folds) n_iter with
      | none => .error .valueError
      | some l => .ok (s, l)

/-! Concrete instantiations of the external collaborators, used to evaluate
the embedded pipeline at specific inputs. -/

/-- A concrete, fully computable instantiation of the externals: the identity
as square root stand-in, `linInterp` as interpolator, a trivial quadrature,
and a small injective `2 × 2 × 2` source lattice. -/
def extEval : Externals where
  sqrtQ := fun q => q
  npPi := 3
  tplquad := fun f lo hi => (hi - lo) * f 0 0 0
  interp1d := linInterp
  make_src_3D := fun _ _ _ _ _ _ _ _ R_init =>
    (fun a _ _ => (a : ℚ), fun _ b _ => (b : ℚ), fun _ _ c => (c : ℚ),
      (2, 2, 2), R_init)
  cross_validation := fun l _ _ _ _ => l

/-- A concrete basis catalogue instance (arbitrary computable densities). -/
def bfsEval : BasisFns where
  step_rescale_3D := fun _ _ _ _ => 1
  gauss_rescale_3D := fun x y z c R => x + y + z + c.1 + R
  gauss_rescale_lim := fun x y c R => x + y + c.1 + R
  gauss_rescale_lim_3D := fun x y c R => x + y + c.1 + R

/-- A state with an injective `2 × 2 × 2` source lattice
(`X_src[a,b,c] = a`, `Y_src[a,b,c] = b`, `Z_src[a,b,c] = c`), exhibiting the
source-enumeration conventions of the assembly routines. -/
def sLat : KState where
  n_elec := 4
  elec_pos := fun _ => (0, 0, 0)
  sampled_pots := fun _ => 0
  lambd := 0
  sigma := 1
  hBasis := 1
  R := 1
  dist_max := 1
  source_type := .gaussian
  nsx := 2
  nsy := 2
  nsz := 2
  X_src := fun a _ _ => (a : ℚ)
  Y_src := fun _ b _ => (b : ℚ)
  Z_src := fun _ _ c => (c : ℚ)
  sx := 1
  sy := 1
  sz := 1
  space_X := fun _ _ _ => 0
  space_Y := fun _ _ _ => 0
  space_Z := fun _ _ _ => 0
  dist_table := none
  b_pot_matrix := none
  k_pot := none
  b_src_matrix := none
  k_interp_cross := none
  b_interp_pot_matrix := none
  interp_pot := none
  estimated_pots := none
  estimated_csd := none

/-- A `gauss_lim` state whose estimation grid has two points differing only in
their z coordinate (`(0,0,0)` and `(0,0,5)`), with a single source at the
origin. -/
def sGL : KState :=
  { sLat with
    source_type := .gauss_lim
    nsx := 1, nsy := 1, nsz := 1
    X_src := fun _ _ _ => 0
    Y_src := fun _ _ _ => 0
    Z_src := fun _ _ _ => 0
    sz := 2
    space_Z := fun _ _ c => 5 * (c : ℚ) }

/-- Four electrodes whose default domain has `x_max = 1`, `y_max = 2`,
`z_max = 1` (so the y and z upper bounds differ). -/
def elecC3 : ℕ → Pt := fun i =>
  if i = 0 then (0, 0, 0)
  else if i = 1 then (1, 1, 0)
  else if i = 2 then (0, 2, 1)
  else (1, 0, 1)

/-- Claim C1: the spec states that `b_pot_matrix` rows and
`b_src_matrix` / `b_interp_pot_matrix` columns enumerate the source lattice
in one common order.  The code unravels the flat source index in C order for
`b_pot_matrix` (line 308) but in Fortran order for the other two (lines 342,
392): the two grid-by-source matrices agree with each other, but already at
flat index 1 of a `2 × 2 × 2` lattice the `b_pot_matrix` row refers to lattice
cell `(0,0,1)` while the `b_src_matrix` column refers to cell `(1,0,0)` — a
different source centre. -/
theorem source_enumeration_mismatch :
    (∀ s : KState, ∀ i : ℕ, b_src_col_source s i = b_interp_col_source s i)
    ∧ unravel_index_C 2 2 1 = (0, 0, 1)
    ∧ unravel_index_F 2 2 1 = (1, 0, 0)
    ∧ b_pot_row_source sLat 1 ≠ b_src_col_source sLat 1 :=
  ⟨fun _ _ => rfl, by decide, by decide, by with_unfolding_all decide⟩

/-- Claim C3: with the default domain bounds of `elecC3` (so
`z_min = 0, z_max = 1, y_max = 2`), the constructed estimation grid's z axis
ends at `2 = y_max` rather than `z_max = 1`: line 78 passes `self.ymax` as
the endpoint of the z linspace.  The x and y axes do end at their own
maxima (`1` and `2`).  The tuple below reads the last grid coordinate on the
z, x and y axes of the constructed state. -/
theorem estimation_grid_z_axis_bug :
    (KCSD3D_mk extEval 4 4 elecC3 (fun _ => 0) KParams.default).map
      (fun s => (s.space_Z 0 0 (s.sz - 1), s.space_X 0 (s.sy - 1) 0,
        s.space_Y (s.sx - 1) 0 0))
      = .ok (2, 1, 2)
    ∧ npMaxL ((List.range 4).map fun i => (elecC3 i).2.2) = 1 := by
  constructor
  · with_unfolding_all rfl
  · with_unfolding_all rfl

/-- Claim C5: for any physical distance `0 ≤ d ≤ dist_max` (the range the
spec guarantees for assembly-time distances), the lookup index computed at
line 317 equals `round(100 · d / dist_max)` clamped into `[0, 99]`, is always
in bounds, and the variant with the extra `np.maximum(0, ·)` used by
`generated_potential` (line 368) computes the same index. -/
theorem dist_table_lookup_contract (d dist_max : ℚ)
    (h0 : 0 ≤ d) (h1 : d ≤ dist_max) :
    lookup_index 100 d dist_max = claimed_lookup_index 100 d dist_max
    ∧ lookup_index 100 d dist_max < 100
    ∧ lookup_index_interp 100 d dist_max = lookup_index 100 d dist_max := by
  have hdm : 0 ≤ dist_max := le_trans h0 h1
  have hq0 : 0 ≤ (100 : ℚ) * d / dist_max :=
    div_nonneg (mul_nonneg (by norm_num) h0) hdm
  have hq100 : (100 : ℚ) * d / dist_max ≤ 100 := by
    rcases eq_or_lt_of_le hdm with h | h
    · rw [← h]; norm_num
    · rw [div_le_iff₀ h]; nlinarith
  have hr0 : 0 ≤ npRound ((100 : ℚ) * d / dist_max) := npRound_nonneg hq0
  have hr1 : npRound ((100 : ℚ) * d / dist_max) ≤ 101 := by
    have h2 := npRound_le_floor_add_one ((100 : ℚ) * d / dist_max)
    have h3 : ⌊(100 : ℚ) * d / dist_max⌋ ≤ ⌊(100 : ℚ)⌋ := Int.floor_le_floor hq100
    have h4 : ⌊(100 : ℚ)⌋ = 100 := by norm_num
    omega
  have hcast : ∀ z : ℤ, 0 ≤ z → z ≤ 101 → npUint16 z = z.toNat := by
    intro z hz0 hz1
    unfold npUint16
    omega
  have hnn : ((100 : ℕ) : ℚ) = (100 : ℚ) := by norm_num
  refine ⟨?_, ?_, ?_⟩
  · unfold lookup_index claimed_lookup_index
    rw [hnn, hcast _ hr0 hr1]
  · unfold lookup_index
    have := min_le_right (npUint16 (npRound (((100 : ℕ) : ℚ) * d / dist_max))) (100 - 1)
    omega
  · unfold lookup_index_interp lookup_index
    omega

/-- Witness for the lookup contract at `d = 1`, `dist_max = 2`. -/
theorem dist_table_lookup_contract_witness :
    lookup_index 100 1 2 = claimed_lookup_index 100 1 2
    ∧ lookup_index 100 1 2 < 100
    ∧ lookup_index_interp 100 1 2 = lookup_index 100 1 2 :=
  dist_table_lookup_contract 1 2 (by norm_num) (by norm_num)

/-- Claim C6: in the `gauss_lim` branch of `make_b_src_matrix_3D` (line 352)
the code passes only the planar coordinates and a 2D centre to
`gauss_rescale_lim`, so — for every possible basis implementation — the
`b_src_matrix` entry is identical at the grid points `(0,0,0)` and `(0,0,5)`
of `sGL`, although the claim says the density depends on all three
coordinates of the grid point relative to the source centre.  (The `step`
and `gaussian` branches do receive all three coordinates, and all branches
receive the shared radius `R`.) -/
theorem gauss_lim_b_src_ignores_z :
    (∀ bfs : BasisFns, ∀ i : ℕ,
      make_b_src_matrix_3D bfs sGL 0 i = make_b_src_matrix_3D bfs sGL 1 i)
    ∧ grid_point sGL 0 = (0, 0, 0)
    ∧ grid_point sGL 1 = (0, 0, 5)
    ∧ (∀ bfs : BasisFns, ∀ gp src : Pt, ∀ R : ℚ,
        b_src_entry bfs .gauss_lim gp src R
          = bfs.gauss_rescale_lim gp.1 gp.2.1 (src.1, src.2.1) R) :=
  ⟨fun _ _ => rfl, by with_unfolding_all decide, by with_unfolding_all decide,
    fun _ _ _ _ => rfl⟩

/-- An externals instantiation whose quadrature samples the integrand at
`(99, 0, 0)`, making the tabulated potential value an injective function of
the query distance (so distinct distances are distinguishable). -/
def extCex : Externals := { extEval with tplquad := fun f _ _ => f 99 0 0 }

/-- The stand-in interpolator `linInterp` satisfies the interface contract of `interp1d`: on strictly
increasing nodes it reproduces the sample values. -/
theorem linInterp_node (xs : List ℚ) : ∀ ys : List ℚ, xs.Sorted (· < ·) →
    xs.length = ys.length →
    ∀ j, j < xs.length → linInterp xs ys (xs.getD j 0) = ys.getD j 0 := by
  induction xs with
  | nil => intro ys _ _ j hj; simp at hj
  | cons x1 rest ih =>
    intro ys hs hlen j hj
    cases ys with
    | nil => simp at hlen
    | cons y1 ys1 =>
      cases rest with
      | nil =>
        have hj0 : j = 0 := by simpa using hj
        subst hj0
        simp [linInterp]
      | cons x2 rest2 =>
        cases ys1 with
        | nil => simp at hlen
        | cons y2 ys2 =>
          have h12 : x1 < x2 := (List.sorted_cons.mp hs).1 x2 (by simp)
          match j with
          | 0 =>
            simp only [List.getD_cons_zero]
            simp [linInterp]
          | 1 =>
            simp only [List.getD_cons_succ, List.getD_cons_zero]
            simp only [linInterp, if_neg (not_le.mpr h12), if_pos (le_refl x2)]
            rw [mul_div_assoc, div_self (sub_ne_zero.mpr (ne_of_gt h12))]
            ring
          | (k+2) =>
            have hk : k < rest2.length := by simpa using hj
            have hqmem : rest2.getD k 0 ∈ rest2 := by
              rw [List.getD_eq_getElem _ _ hk]
              exact List.getElem_mem hk
            have hx2q : x2 < rest2.getD k 0 :=
              (List.sorted_cons.mp (List.sorted_cons.mp hs).2).1 _ hqmem
            have hx1q : x1 < rest2.getD k 0 :=
              (List.sorted_cons.mp hs).1 _ (List.mem_cons_of_mem x2 hqmem)
            have hgd : (x1 :: x2 :: rest2).getD (k+2) 0
                = (x2 :: rest2).getD (k+1) 0 := rfl
            rw [hgd]
            have hgd2 : (x2 :: rest2).getD (k+1) 0 = rest2.getD k 0 := rfl
            simp only [linInterp]
            rw [if_neg (by rw [hgd2]; exact not_le.mpr hx1q),
              if_neg (by rw [hgd2]; exact not_le.mpr hx2q)]
            have := ih (y2 :: ys2) (List.sorted_cons.mp hs).2
              (by simpa using hlen) (k+1) (by simpa using hj)
            simpa using this

theorem getD_map_range (n : ℕ) (f : ℕ → ℚ) (i : ℕ) (hi : i < n) :
    ((List.range n).map f).getD i 0 = f i := by
  rw [List.getD_eq_getElem _ _ (by simpa using hi)]
  simp

theorem getD_map_of_lt (l : List ℚ) (f : ℚ → ℚ) (j : ℕ) (hj : j < l.length) :
    (l.map f).getD j 0 = f (l.getD j 0) := by
  rw [List.getD_eq_getElem _ _ (by simpa using hj), List.getD_eq_getElem _ _ hj]
  simp

/-- Claim C4 (amended part): for every configuration, the table built by
`create_dist_table` has exactly `dist_table_density = 100` entries; whenever
the interpolator agrees with the raw samples at the sample points (the
interface contract of `interp1d`), an index `i` that coincides with a sample
point holds the basis potential at the physical distance
`(i/100) · dist_max`; and a query at distance `dist_max` itself is clamped to
the last index `99` (which therefore represents distance `0.99 · dist_max`,
not `dist_max`). -/
theorem dist_table_spec_amended (ext : Externals) (bfs : BasisFns)
    (R dist_max hB sigma : ℚ) (st : SourceType)
    (hint : ∀ j : ℕ, j < (dist_table_xs R dist_max).length →
      ext.interp1d (dist_table_xs R dist_max)
        (dist_table_ys ext bfs R dist_max hB sigma st)
        ((dist_table_xs R dist_max).getD j 0)
        = (dist_table_ys ext bfs R dist_max hB sigma st).getD j 0)
    (hdm : 0 < dist_max) :
    (create_dist_table ext bfs R dist_max hB sigma st).length = 100
    ∧ (∀ i : ℕ, i < 100 → ((i : ℚ)) ∈ dist_table_xs R dist_max →
        (create_dist_table ext bfs R dist_max hB sigma st).getD i 0
          = b_pot_3d_cont ext bfs ((i : ℚ) / 100 * dist_max) R hB sigma st)
    ∧ lookup_index 100 dist_max dist_max = 99 := by
  refine ⟨?_, ?_, ?_⟩
  · unfold create_dist_table
    rw [List.length_map, List.length_range]
  · intro i hi hmem
    have h1 : (create_dist_table ext bfs R dist_max hB sigma st).getD i 0
        = ext.interp1d (dist_table_xs R dist_max)
          (dist_table_ys ext bfs R dist_max hB sigma st) (i : ℚ) := by
      unfold create_dist_table
      exact getD_map_range 100 _ i hi
    obtain ⟨j, hj, hxj⟩ := List.mem_iff_getElem.mp hmem
    have hxd : (dist_table_xs R dist_max).getD j 0 = (i : ℚ) := by
      rw [List.getD_eq_getElem _ _ hj]
      exact hxj
    have h2 := hint j hj
    rw [hxd] at h2
    have h3 : (dist_table_ys ext bfs R dist_max hB sigma st).getD j 0
        = b_pot_3d_cont ext bfs ((i : ℚ) / 100 * dist_max) R hB sigma st := by
      unfold dist_table_ys
      rw [getD_map_of_lt _ _ j hj, hxd]
    rw [h1, h2, h3]
  · have hq : ((100 : ℕ) : ℚ) * dist_max / dist_max = 100 := by
      field_simp
    unfold lookup_index
    rw [hq]
    with_unfolding_all decide

/-- Witness for the amended distance-table theorem at `R = 1`,
`dist_max = 10`, with the computable externals: the interpolation contract of
`linInterp` is checked at every sample node, and index `0` (a sample point)
holds the basis potential at distance `0`. -/
theorem dist_table_spec_amended_witness :
    (create_dist_table extEval bfsEval 1 10 1 1 .step).length = 100
    ∧ (create_dist_table extEval bfsEval 1 10 1 1 .step).getD 0 0
        = b_pot_3d_cont extEval bfsEval 0 1 1 1 .step
    ∧ lookup_index 100 10 10 = 99 := by
  have h := dist_table_spec_amended extEval bfsEval 1 10 1 1 .step
    (fun j hj => linInterp_node (dist_table_xs 1 10)
      (dist_table_ys extEval bfsEval 1 10 1 1 .step)
      (by with_unfolding_all decide)
      (by unfold dist_table_ys; rw [List.length_map]) j hj)
    (by norm_num)
  refine ⟨h.1, ?_, h.2.2⟩
  have h2 := h.2.1 0 (by norm_num) (by with_unfolding_all decide)
  simpa using h2

/-- Claim C4 (counterexample): with interface-conforming externals (the
interpolator agrees with the raw samples at every node and the quadrature
distinguishes distances), at `R = 5`, `dist_max = 52` the normalized
coordinate `99` is itself a sample point, and the last table entry equals the
basis potential at distance `(99/100) · dist_max` while differing from the
basis potential at distance `dist_max` — so the last entry does not
correspond to `dist_max` under the table's own index convention. -/
theorem dist_table_last_entry_not_dist_max :
    ((99 : ℚ)) ∈ dist_table_xs 5 52
    ∧ (create_dist_table extCex bfsEval 5 52 1 1 .step).getD 99 0
        = b_pot_3d_cont extCex bfsEval (99 / 100 * 52) 5 1 1 .step
    ∧ (create_dist_table extCex bfsEval 5 52 1 1 .step).getD 99 0
        ≠ b_pot_3d_cont extCex bfsEval 52 5 1 1 .step := by
  refine ⟨?_, ?_, ?_⟩
  · with_unfolding_all decide
  · with_unfolding_all rfl
  · with_unfolding_all decide

theorem foldl_add_apply (l : List ℕ) (f : ℕ → ℕ → ℚ) :
    ∀ (init : ℕ → ℚ) (g : ℕ),
      (l.foldl (fun acc i => fun a => acc a + f i a) init) g
        = init g + (l.map fun i => f i g).sum := by
  induction l with
  | nil => intro init g; simp
  | cons a t ih =>
    intro init g
    rw [List.foldl_cons, ih]
    simp [add_assoc]

theorem sum_range_eq_list (n : ℕ) (f : ℕ → ℚ) :
    ((List.range n).map f).sum = ∑ i ∈ Finset.range n, f i := by
  induction n with
  | zero => simp
  | succ m ih => rw [List.range_succ, Finset.sum_range_succ]; simp [ih]

/-- The electrode accumulation loop computes the projection sum
`Σ_i beta[i] · estimation_table[g, i]`. -/
theorem accumulate_field_eq_sum (n : ℕ) (beta : Vec) (et : Mat) :
    accumulate_field n beta et
      = fun g => ∑ i ∈ Finset.range n, beta i * et g i := by
  funext g
  unfold accumulate_field
  rw [foldl_add_apply, sum_range_eq_list]
  simp

/-- On the working square, `matVec` agrees with Mathlib's `mulVec` of the
truncated matrix. -/
theorem matVec_eq_mulVec (n : ℕ) (M : Mat) (w : Vec) (t : ℕ) (ht : t < n) :
    matVec n M w t
      = ((toFinMat n M).mulVec fun j : Fin n => w (j : ℕ)) ⟨t, ht⟩ := by
  show ∑ x ∈ Finset.range n, M t x * w x
    = ∑ j : Fin n, toFinMat n M ⟨t, ht⟩ j * w (j : ℕ)
  rw [← Fin.sum_univ_eq_sum_range (fun x => M t x * w x) n]
  rfl

/-- The truncation of `npinvFun` is exactly `det⁻¹ • adjugate`. -/
theorem toFinMat_npinvFun (n : ℕ) (A : Mat) :
    toFinMat n (npinvFun n A)
      = (((toFinMat n A).det)⁻¹ • (toFinMat n A).adjugate) := by
  ext i j
  show npinvFun n A (i : ℕ) (j : ℕ) = _
  unfold npinvFun
  rw [dif_pos ⟨i.isLt, j.isLt⟩]

/-- The matrix `np.linalg.inv` returns solves the linear system on the
working square: multiplying back by `A` recovers the right-hand side. -/
theorem np_inv_solves (n : ℕ) (A : Mat) (v : Vec)
    (hdet : (toFinMat n A).det ≠ 0) :
    ∀ i, i < n → matVec n A (matVec n (npinvFun n A) v) i = v i := by
  intro i hi
  have hMI : toFinMat n A * (((toFinMat n A).det)⁻¹ • (toFinMat n A).adjugate)
      = 1 := by
    rw [Matrix.mul_smul, Matrix.mul_adjugate, smul_smul,
      inv_mul_cancel₀ hdet, one_smul]
  rw [matVec_eq_mulVec n A _ i hi]
  have harg : (fun j : Fin n => matVec n (npinvFun n A) v (j : ℕ))
      = (toFinMat n (npinvFun n A)).mulVec fun j : Fin n => v (j : ℕ) := by
    funext j
    rw [matVec_eq_mulVec n (npinvFun n A) v (j : ℕ) j.isLt]
  rw [harg, Matrix.mulVec_mulVec, toFinMat_npinvFun, hMI, Matrix.one_mulVec]

/-- The regularized kernel matrix `k_pot + lambda * identity` inverted by the
estimation methods (lines 95, 111). -/
def estA (s : KState) (kp : Mat) : Mat := matAdd kp (matSmul s.lambd identityM)

/-- The coefficient vector `beta = dot(k_inv, sampled_pots)`
(lines 96, 112). -/
def estBeta (s : KState) (kp : Mat) : Vec :=
  matVec s.n_elec (npinvFun s.n_elec (estA s kp)) s.sampled_pots

/-- The estimated field: the projection sum over electrodes, reshaped to the
estimation-space shape. -/
def estField (s : KState) (kp et : Mat) : Arr3 :=
  reshape3 s.sy s.sz (fun g => ∑ i ∈ Finset.range s.n_elec, estBeta s kp i * et g i)

/-- Claim C2: on a state carrying the assembled matrices, whenever the
regularized kernel is nonsingular, `estimate_pots` and `estimate_csd` succeed
and return exactly the 3D reshape (to the estimation-space shape) of the
projection `field[g] = Σ_i beta[i] · Projection[g, i]` — with `interp_pot` as
the projection for potentials and `k_interp_cross` for CSD — where `beta`
solves `(k_pot + lambda·I) beta = sampled_pots` on the electrode indices. -/
theorem estimate_fields_solve_and_project (s : KState) (kp ip kc : Mat)
    (hkp : s.k_pot = some kp) (hip : s.interp_pot = some ip)
    (hkc : s.k_interp_cross = some kc)
    (hdet : (toFinMat s.n_elec (estA s kp)).det ≠ 0) :
    estimate_pots s
      = .ok ({ s with estimated_pots := some (estField s kp ip) }, estField s kp ip)
    ∧ estimate_csd s
      = .ok ({ s with estimated_csd := some (estField s kp kc) }, estField s kp kc)
    ∧ (∀ i, i < s.n_elec →
        matVec s.n_elec (estA s kp) (estBeta s kp) i = s.sampled_pots i) := by
  have hdet' : ¬ ((toFinMat s.n_elec
      (matAdd kp (matSmul s.lambd identityM))).det = 0) := hdet
  refine ⟨?_, ?_, ?_⟩
  · unfold estimate_pots
    rw [hip, hkp]
    simp only [np_linalg_inv, if_neg hdet', accumulate_field_eq_sum,
      estField, estBeta, estA]
  · unfold estimate_csd
    rw [hkc, hkp]
    simp only [np_linalg_inv, if_neg hdet', accumulate_field_eq_sum,
      estField, estBeta, estA]
  · exact np_inv_solves s.n_elec (estA s kp) s.sampled_pots hdet

/-- A concrete single-electrode kernel matrix. -/
def kpW : Mat := fun i j => if i = j then 2 else 0

/-- A concrete grid-to-electrode projection for potentials. -/
def ipW : Mat := fun _ _ => 3

/-- A concrete grid-to-electrode projection for CSD. -/
def kcW : Mat := fun _ _ => 5

/-- A state with one electrode and the assembled matrices present. -/
def sEst : KState :=
  { sLat with
    n_elec := 1
    sampled_pots := fun _ => 2
    k_pot := some kpW
    interp_pot := some ipW
    k_interp_cross := some kcW }

/-- Witness for the estimation theorem on `sEst`: both estimation calls
succeed with the projected field, and `beta` reproduces the sampled potential
at electrode `0`. -/
theorem estimate_fields_solve_and_project_witness :
    estimate_pots sEst
      = .ok ({ sEst with estimated_pots := some (estField sEst kpW ipW) },
          estField sEst kpW ipW)
    ∧ matVec sEst.n_elec (estA sEst kpW) (estBeta sEst kpW) 0
        = sEst.sampled_pots 0 := by
  have hdet : (toFinMat sEst.n_elec (estA sEst kpW)).det ≠ 0 := by
    show (toFinMat 1 (estA sEst kpW)).det ≠ 0
    rw [Matrix.det_fin_one]
    with_unfolding_all decide
  have h := estimate_fields_solve_and_project sEst kpW ipW kcW rfl rfl rfl hdet
  exact ⟨h.1, h.2.2 0 (by with_unfolding_all decide)⟩

/-- Claim C7: after `calculate_matrices`, duplicate electrode positions make
two rows of `k_pot = b_pot_matrixᵀ · b_pot_matrix` identical (the `b_pot`
entry depends on the electrode only through its position), so with
`lambda = 0` the regularized kernel is exactly singular and both estimation
methods fail with the singular-matrix error instead of returning a field. -/
theorem singular_kernel_unregularized_error (ext : Externals) (bfs : BasisFns)
    (s : KState) (j1 j2 : ℕ) (h1 : j1 < s.n_elec) (h2 : j2 < s.n_elec)
    (hne : j1 ≠ j2) (heq : s.elec_pos j1 = s.elec_pos j2) (hl : s.lambd = 0) :
    estimate_pots (calculate_matrices ext bfs s) = .error .singularMatrix
    ∧ estimate_csd (calculate_matrices ext bfs s) = .error .singularMatrix := by
  have hcol : ∀ t : ℕ, cm_b_pot ext bfs s t j1 = cm_b_pot ext bfs s t j2 := by
    intro t
    unfold cm_b_pot calculate_b_pot_matrix_3D
    rw [heq]
  have hrow : ∀ a : ℕ, cm_k_pot ext bfs s j1 a = cm_k_pot ext bfs s j2 a := by
    intro a
    unfold cm_k_pot matMul matTrans
    exact Finset.sum_congr rfl fun t _ => by rw [hcol t]
  have hA : matAdd (cm_k_pot ext bfs s) (matSmul s.lambd identityM)
      = cm_k_pot ext bfs s := by
    funext i j
    simp [matAdd, matSmul, hl]
  have hdet : (toFinMat s.n_elec (cm_k_pot ext bfs s)).det = 0 := by
    apply Matrix.det_zero_of_row_eq
      (i := (⟨j1, h1⟩ : Fin s.n_elec)) (j := (⟨j2, h2⟩ : Fin s.n_elec))
    · intro hc
      exact hne (by simpa using congrArg Fin.val hc)
    · funext a
      show cm_k_pot ext bfs s j1 (a : ℕ) = cm_k_pot ext bfs s j2 (a : ℕ)
      exact hrow a
  have hinv : np_linalg_inv s.n_elec
      (matAdd (cm_k_pot ext bfs s) (matSmul s.lambd identityM)) = none := by
    unfold np_linalg_inv
    rw [hA, if_pos hdet]
  constructor
  · unfold estimate_pots
    simp only [calculate_matrices, hinv]
  · unfold estimate_csd
    simp only [calculate_matrices, hinv]

/-- Witness: `sLat` has four electrodes all at the origin, so electrodes `0`
and `1` coincide; with `lambda = 0` both estimation calls fail singular. -/
theorem singular_kernel_unregularized_error_witness :
    estimate_pots (calculate_matrices extEval bfsEval sLat)
      = .error .singularMatrix
    ∧ estimate_csd (calculate_matrices extEval bfsEval sLat)
      = .error .singularMatrix :=
  singular_kernel_unregularized_error extEval bfsEval sLat 0 1
    (by with_unfolding_all decide) (by with_unfolding_all decide)
    (by decide) rfl rfl

theorem foldl_min_le (t : List ℚ) : ∀ a : ℚ,
    t.foldl min a ≤ a ∧ ∀ x ∈ t, t.foldl min a ≤ x := by
  induction t with
  | nil => intro a; exact ⟨le_refl a, fun x hx => absurd hx (List.not_mem_nil x)⟩
  | cons b t ih =>
    intro a
    refine ⟨?_, ?_⟩
    · exact le_trans (ih (min a b)).1 (min_le_left a b)
    · intro x hx
      rcases List.mem_cons.mp hx with h | h
      · subst h
        exact le_trans (ih (min a x)).1 (min_le_right a x)
      · exact (ih (min a b)).2 x h

theorem foldl_min_mem (t : List ℚ) : ∀ a : ℚ,
    t.foldl min a = a ∨ t.foldl min a ∈ t := by
  induction t with
  | nil => intro a; exact Or.inl rfl
  | cons b t ih =>
    intro a
    rcases ih (min a b) with h | h
    · show t.foldl min (min a b) = a ∨ t.foldl min (min a b) ∈ b :: t
      rw [h]
      rcases le_total a b with hab | hab
      · left; exact min_eq_left hab
      · right; rw [min_eq_right hab]; exact List.mem_cons_self b t
    · right
      exact List.mem_cons_of_mem b h

/-- The minimum returned by `npMin` is an element of the list and bounds
every element below. -/
theorem npMin_spec (l : List ℚ) (m : ℚ) (hm : npMin l = some m) :
    m ∈ l ∧ ∀ x ∈ l, m ≤ x := by
  cases l with
  | nil => cases hm
  | cons a t =>
    have hm' : t.foldl min a = m := by simpa [npMin] using hm
    subst hm'
    constructor
    · rcases foldl_min_mem t a with h | h
      · rw [h]; exact List.mem_cons_self a t
      · exact List.mem_cons_of_mem a h
    · intro x hx
      rcases List.mem_cons.mp hx with h | h
      · rw [h]; exact (foldl_min_le t a).1
      · exact (foldl_min_le t a).2 x h

/-- The boolean-mask-then-first selection `lambdas[errors == m][0]` picks the
entry of `la` at the first index where `le` attains `m`. -/
theorem filter_head_first (la : List ℚ) : ∀ (le : List ℚ) (m : ℚ),
    la.length = le.length → m ∈ le →
    ∃ i, i < le.length ∧ le.getD i 0 = m ∧ (∀ k, k < i → le.getD k 0 ≠ m) ∧
      (((la.zip le).filter fun p => decide (p.2 = m)).head?
        = some (la.getD i 0, m)) := by
  induction la with
  | nil =>
    intro le m hlen hm
    cases le with
    | nil => cases hm
    | cons e le2 => simp at hlen
  | cons a la ih =>
    intro le m hlen hm
    cases le with
    | nil => cases hm
    | cons e le2 =>
      by_cases he : e = m
      · subst he
        refine ⟨0, by simp, rfl, fun k hk => absurd hk (Nat.not_lt_zero k), ?_⟩
        rw [List.zip_cons_cons, List.filter_cons_of_pos (by simp)]
        rfl
      · have hm2 : m ∈ le2 := by
          rcases List.mem_cons.mp hm with h | h
          · exact absurd h.symm he
          · exact h
        have hlen2 : la.length = le2.length := by simpa using hlen
        obtain ⟨i, hi, hgd, hfirst, hhead⟩ := ih le2 m hlen2 hm2
        refine ⟨i + 1, by simpa using Nat.succ_lt_succ hi, ?_, ?_, ?_⟩
        · simpa [List.getD_cons_succ] using hgd
        · intro k hk
          cases k with
          | zero => simpa [List.getD_cons_zero] using he
          | succ k2 =>
            have hk2 : k2 < i := by omega
            simpa [List.getD_cons_succ] using hfirst k2 hk2
        · rw [List.zip_cons_cons, List.filter_cons_of_neg (by simp [he])]
          simpa [List.getD_cons_succ] using hhead

/-- Claim C8: on a non-empty candidate list with `n_iter ≥ 1`, whatever
values the cross-validation calls return, the selection step computes each
candidate's error as the mean over the `n_iter` iterations and returns the
candidate at the first (smallest) index attaining the minimal mean — in
particular an element of the candidate list. -/
theorem choose_lambda_first_min_mean (lambdas : List ℚ) (errFn : ℕ → ℕ → ℚ)
    (n_iter : ℕ) (hne : lambdas ≠ []) (hit : 1 ≤ n_iter) :
    ∃ i, i < lambdas.length
      ∧ choose_lambda_core lambdas errFn n_iter = some (lambdas.getD i 0)
      ∧ lambdas.getD i 0 ∈ lambdas
      ∧ (∀ k, k < lambdas.length →
          meanErr errFn n_iter i ≤ meanErr errFn n_iter k)
      ∧ (∀ k, k < i → meanErr errFn n_iter k ≠ meanErr errFn n_iter i) := by
  have hlen : lambdas.length
      = ((List.range lambdas.length).map (meanErr errFn n_iter)).length := by
    rw [List.length_map, List.length_range]
  have hpos : 0 < lambdas.length := List.length_pos.mpr hne
  have hgetD : ∀ k, k < lambdas.length →
      ((List.range lambdas.length).map (meanErr errFn n_iter)).getD k 0
        = meanErr errFn n_iter k := fun k hk => getD_map_range _ _ k hk
  obtain ⟨m, hm⟩ : ∃ m,
      npMin ((List.range lambdas.length).map (meanErr errFn n_iter)) = some m := by
    rcases herr : (List.range lambdas.length).map (meanErr errFn n_iter) with _ | ⟨a, t⟩
    · rw [herr] at hlen; rw [hlen] at hpos; simp at hpos
    · exact ⟨t.foldl min a, rfl⟩
  obtain ⟨hmem, hlb⟩ := npMin_spec _ m hm
  obtain ⟨i, hi, hgd, hfirst, hhead⟩ :=
    filter_head_first lambdas _ m hlen hmem
  have hilt : i < lambdas.length := by rw [hlen]; exact hi
  refine ⟨i, hilt, ?_, ?_, ?_, ?_⟩
  · unfold choose_lambda_core
    simp only [hm, hhead]
    rfl
  · rw [List.getD_eq_getElem _ _ hilt]
    exact List.getElem_mem hilt
  · intro k hk
    have h1 : meanErr errFn n_iter i = m := by rw [← hgetD i hilt, hgd]
    have h2 : ((List.range lambdas.length).map (meanErr errFn n_iter)).getD k 0
        ∈ (List.range lambdas.length).map (meanErr errFn n_iter) := by
      rw [List.getD_eq_getElem _ _ (by rw [← hlen]; exact hk)]
      exact List.getElem_mem (by rw [← hlen]; exact hk)
    have h3 := hlb _ h2
    rw [hgetD k hk] at h3
    rw [h1]
    exact h3
  · intro k hk
    have hkl : k < lambdas.length := lt_trans hk hilt
    have h1 : meanErr errFn n_iter i = m := by rw [← hgetD i hilt, hgd]
    intro hck
    apply hfirst k hk
    rw [hgetD k hkl, hck, h1]

/-- Witness: two candidates with iteration errors making the second one
strictly better; the core selection returns the second candidate. -/
theorem choose_lambda_first_min_mean_witness :
    choose_lambda_core [1, 1/2] (fun i _ => 3 - (i : ℚ)) 1 = some (1/2) := by
  have h := choose_lambda_first_min_mean [1, 1/2] (fun i _ => 3 - (i : ℚ)) 1
    (by decide) (le_refl 1)
  with_unfolding_all decide

/-- The jointly immutable assembled data of a state. -/
def assembled_view (s : KState) :=
  (s.k_pot, s.k_interp_cross, s.interp_pot, s.dist_table, s.b_pot_matrix,
    s.b_src_matrix, s.b_interp_pot_matrix, s.elec_pos, s.sampled_pots)

/-- Claim C9: on any state, a successful `estimate_pots` changes nothing in
the assembled view (nor `estimated_csd`), a successful `estimate_csd` changes
nothing in the assembled view (nor `estimated_pots`), and `choose_lambda`
returns the state unchanged; failures raise before assigning anything. -/
theorem estimation_preserves_assembled_state (ext : Externals) (s : KState)
    (lambdas : List ℚ) (n_folds n_iter : ℕ) :
    ((estimate_pots s).map fun p => (assembled_view p.1, p.1.estimated_csd))
      = ((estimate_pots s).map fun _ => (assembled_view s, s.estimated_csd))
    ∧ ((estimate_csd s).map fun p => (assembled_view p.1, p.1.estimated_pots))
      = ((estimate_csd s).map fun _ => (assembled_view s, s.estimated_pots))
    ∧ ((choose_lambda ext s lambdas n_folds n_iter).map fun p => p.1)
      = ((choose_lambda ext s lambdas n_folds n_iter).map fun _ => s) := by
  refine ⟨?_, ?_, ?_⟩
  · unfold estimate_pots
    split
    · rfl
    · split
      · rfl
      · split
        · rfl
        · rfl
  · unfold estimate_csd
    split
    · rfl
    · split
      · rfl
      · split
        · rfl
        · rfl
  · unfold choose_lambda
    split
    · rfl
    · split
      · rfl
      · split
        · rfl
        · split
          · rfl
          · rfl

/-- Claim C10: construction performs no matrix assembly — on every freshly
constructed state the seven derived attributes are absent and
`estimate_pots` / `estimate_csd` / `choose_lambda` all fail with the
attribute error; only `calculate_matrices` creates `k_pot`, `interp_pot` and
`k_interp_cross`. -/
theorem constructor_performs_no_assembly (ext : Externals) (bfs : BasisFns)
    (n_elec n_pots : ℕ) (pos : ℕ → Pt) (pots : Vec) (params : KParams)
    (s : KState) :
    ((KCSD3D_mk ext n_elec n_pots pos pots params).map fun st =>
      (st.k_pot, st.interp_pot, st.k_interp_cross, st.b_pot_matrix,
        st.b_src_matrix, st.b_interp_pot_matrix, st.dist_table,
        estimate_pots st, estimate_csd st, choose_lambda ext st [1] 1 1))
    = ((KCSD3D_mk ext n_elec n_pots pos pots params).map fun _ =>
      (none, none, none, none, none, none, none,
        .error .attributeError, .error .attributeError, .error .attributeError))
    ∧ (calculate_matrices ext bfs s).k_pot.isSome = true
    ∧ (calculate_matrices ext bfs s).interp_pot.isSome = true
    ∧ (calculate_matrices ext bfs s).k_interp_cross.isSome = true := by
  refine ⟨?_, rfl, rfl, rfl⟩
  unfold KCSD3D_mk
  split
  · rfl
  · split
    · rfl
    · rfl

end PyKCSD
